import Mathlib

/-!
Verification development for the event-store core of the `ddd-boilerplate`
repository: the two `IEventStore` implementations (`InMemoryEventStore` and
`PostgreSqlEventStore`), the `retryWithBackoff` combinator, the
`CircuitBreaker`, and the `isTransientError` classifier.

The embedding is shallow: each TypeScript method becomes a pure Lean
function; the mutable store becomes explicit state passing; `Promise`s and
exceptions become `Except`; JavaScript objects with optional properties
become structures with `Option` fields.  A stored event's `globalVersion`
field is `Option Nat`: `some g` models the PostgreSQL entity column,
`none` models an in-memory stored-event object that was never given a
`globalVersion` property (the `StoredDomainEvent` interface has no such
field and `InMemoryEventStore` never assigns one).
-/

/-- A domain event as handed to `appendEvents`: `name` models
`event.constructor.name` (the event type tag) and `payload` the opaque
serialized data. -/
structure DomainEvent where
  name : String
  payload : Nat
deriving DecidableEq, Repr

/-- A persisted event row.  Mirrors `StoredDomainEvent` / `EventStoreEntity`;
`globalVersion` is `some g` for rows written by the PostgreSQL store and
`none` for objects stored by the in-memory store, which has no such
property. -/
structure StoredEvent where
  aggregateId : String
  aggregateType : String
  eventType : String
  eventVersion : Nat
  globalVersion : Option Nat
  eventData : Nat
deriving DecidableEq, Repr

/-- The `{errorKey, errorParam}` object passed to `Result.fail` /
`ResultSpecification.fail`.  Each optional field models the presence or
absence of the corresponding property on the `errorParam` object at the
failure site. -/
structure StoreError where
  errorKey : String
  aggregateId : Option String
  expected : Option Nat
  current : Option Nat
deriving DecidableEq, Repr

/-- The `{snapshot, version}` value returned by `getSnapshot` and stored by
the in-memory snapshot map. -/
structure SnapshotRec where
  snapshot : Nat
  version : Nat
deriving DecidableEq, Repr

/-- A row of the `event_store_snapshots` table (`SnapshotEntity`), keyed
externally by `aggregateId`. -/
structure PgSnapshotRow where
  aggregateType : String
  snapshotData : Nat
  version : Nat
deriving DecidableEq, Repr

/-- Map a function receiving the element index over a list, starting the
index at `i`.  Models `Array.prototype.map((x, index) => ...)`. -/
def mapIdxFrom (f : Nat → α → β) : Nat → List α → List β
  | _, [] => []
  | i, a :: t => f i a :: mapIdxFrom f (i + 1) t

/-- JavaScript `Map.prototype.set` on an association list: replace the value
in place if the key is present, otherwise append the binding. -/
def mapSet (k : String) (v : β) : List (String × β) → List (String × β)
  | [] => [(k, v)]
  | (k1, v1) :: t => if k1 = k then (k, v) :: t else (k1, v1) :: mapSet k v t

/-- JavaScript `Map.prototype.get` on an association list. -/
def mapGet (k : String) : List (String × β) → Option β
  | [] => none
  | (k1, v1) :: t => if k1 = k then some v1 else mapGet k t

/-- Number of bindings held for key `k`. -/
def countKey (k : String) (l : List (String × β)) : Nat :=
  (l.filter (fun kv => kv.1 == k)).length

/-- The `eventVersion`s of the events belonging to one aggregate, in store
order. -/
def versionsFor (events : List StoredEvent) (aggregateId : String) : List Nat :=
  (events.filter (fun e => e.aggregateId == aggregateId)).map (fun e => e.eventVersion)

/-- Shared between both stores: current version of an aggregate = maximum
`eventVersion` over its events, `0` if it has none.  Models both
`InMemoryEventStore.getCurrentVersion` (`Math.max` over the filtered array,
`0` when empty) and the SQL `COALESCE(MAX(event_version), 0)` of
`PostgreSqlEventStore.getCurrentVersionInTransaction`. -/
def currentVersionOf (events : List StoredEvent) (aggregateId : String) : Nat :=
  (versionsFor events aggregateId).foldr max 0

/-- Boolean comparator used to model `ORDER BY global_version ASC`
(missing values, which SQL would treat as `NULL`, compare as `0`). -/
def leGlobal (a b : StoredEvent) : Bool :=
  a.globalVersion.getD 0 ≤ b.globalVersion.getD 0

/-- Boolean comparator used to model the in-memory
`sort((a, b) => a.eventVersion - b.eventVersion)` and
`ORDER BY event_version ASC`. -/
def leEvent (a b : StoredEvent) : Bool :=
  a.eventVersion ≤ b.eventVersion

/-! ## In-memory event store (`InMemoryEventStore`) -/

/-- State of an `InMemoryEventStore` instance: the `events` array, the
`snapshots` map and the `globalVersion` counter. -/
structure InMemoryState where
  events : List StoredEvent
  snapshots : List (String × SnapshotRec)
  globalVersion : Nat
deriving DecidableEq, Repr

/-- The freshly constructed store. -/
def InMemoryState.empty : InMemoryState :=
  { events := [], snapshots := [], globalVersion := 0 }

/-- One element of the `storedEvents` array built inside
`InMemoryEventStore.appendEvents`.  The source recomputes
`this.getCurrentVersion(aggregateId)` for every element of the map, but
`this.events` is not mutated until after the map, so every recomputation
reads the same pre-append array `events0` passed here.  No `globalVersion`
property is ever assigned. -/
def InMemoryState.mkStored (events0 : List StoredEvent) (aggregateId aggregateType : String)
    (index : Nat) (event : DomainEvent) : StoredEvent :=
  { aggregateId := aggregateId
    aggregateType := aggregateType
    eventType := event.name
    eventVersion := currentVersionOf events0 aggregateId + index + 1
    globalVersion := none
    eventData := event.payload }

/-- The append path of `InMemoryEventStore.appendEvents` after the
concurrency check: build the stored events, push them, and advance the
`globalVersion` counter by the batch length. -/
def InMemoryState.doAppend (s : InMemoryState) (aggregateId aggregateType : String)
    (events : List DomainEvent) : Except StoreError Unit × InMemoryState :=
  let storedEvents := mapIdxFrom (InMemoryState.mkStored s.events aggregateId aggregateType) 0 events
  (Except.ok (), { s with
    events := s.events ++ storedEvents
    globalVersion := s.globalVersion + events.length })

/-- `InMemoryEventStore.appendEvents`: optimistic concurrency check, then
append.  On a version mismatch the failure's `errorParam` object is
`{expected, current}` — it has no `aggregateId` property. -/
def InMemoryState.appendEvents (s : InMemoryState) (aggregateId aggregateType : String)
    (events : List DomainEvent) (expectedVersion : Option Nat) :
    Except StoreError Unit × InMemoryState :=
  match expectedVersion with
  | some expected =>
    let currentVersion := currentVersionOf s.events aggregateId
    if currentVersion ≠ expected then
      (Except.error { errorKey := "EVENT_STORE_CONCURRENCY_ERROR"
                      aggregateId := none
                      expected := some expected
                      current := some currentVersion }, s)
    else s.doAppend aggregateId aggregateType events
  | none => s.doAppend aggregateId aggregateType events

/-- `InMemoryEventStore.getEventsByType`: filter by `eventType`, then by
`eventVersion > fromVersion` when given, then sort ascending by
`eventVersion`. -/
def InMemoryState.getEventsByType (s : InMemoryState) (eventType : String)
    (fromVersion : Option Nat) : Except StoreError (List StoredEvent) :=
  Except.ok (((s.events.filter (fun e => e.eventType == eventType)).filter
    (fun e => match fromVersion with
      | none => true
      | some v => decide (v < e.eventVersion))).mergeSort leEvent)

/-- `InMemoryEventStore.getAllEvents`: filter by `eventVersion > fromVersion`
and `eventVersion ≤ toVersion` when given, then sort ascending by
`eventVersion`. -/
def InMemoryState.getAllEvents (s : InMemoryState) (fromVersion toVersion : Option Nat) :
    Except StoreError (List StoredEvent) :=
  Except.ok (((s.events.filter
    (fun e => match fromVersion with
      | none => true
      | some v => decide (v < e.eventVersion))).filter
    (fun e => match toVersion with
      | none => true
      | some v => decide (e.eventVersion ≤ v))).mergeSort leEvent)

/-- `InMemoryEventStore.saveSnapshot`: `Map.set` of `{snapshot, version}`
under `aggregateId` (the `aggregateType` argument is accepted but not
stored). -/
def InMemoryState.saveSnapshot (s : InMemoryState) (aggregateId _aggregateType : String)
    (snapshot : Nat) (version : Nat) : Except StoreError Unit × InMemoryState :=
  (Except.ok (), { s with snapshots := mapSet aggregateId ⟨snapshot, version⟩ s.snapshots })

/-- `InMemoryEventStore.getSnapshot`: `Map.get` with `?? null`, wrapped in a
success result. -/
def InMemoryState.getSnapshot (s : InMemoryState) (aggregateId : String) :
    Except StoreError (Option SnapshotRec) :=
  Except.ok (mapGet aggregateId s.snapshots)

/-! ## PostgreSQL event store (`PostgreSqlEventStore`) -/

/-- State of the two tables behind `PostgreSqlEventStore`: `event_store`
rows and `event_store_snapshots` rows keyed by `aggregateId` (primary
key). -/
structure PgState where
  rows : List StoredEvent
  snapshots : List (String × PgSnapshotRow)
deriving DecidableEq, Repr

/-- The empty database. -/
def PgState.empty : PgState := { rows := [], snapshots := [] }

/-- `SELECT COALESCE(MAX(event_version), 0) FROM event_store WHERE
aggregate_id = $1`. -/
def PgState.getCurrentVersion (s : PgState) (aggregateId : String) : Nat :=
  currentVersionOf s.rows aggregateId

/-- `SELECT COALESCE(MAX(global_version), 0) + 1 FROM event_store`
(SQL `MAX` ignores missing values). -/
def PgState.nextGlobalVer (s : PgState) : Nat :=
  (s.rows.filterMap (fun e => e.globalVersion)).foldr max 0 + 1

/-- One `EventStoreEntity` built inside `appendEventsInternal`:
`eventVersion = currentVersion + index + 1`,
`globalVersion = nextGlobalVersion + index`. -/
def PgState.mkEntity (aggregateId aggregateType : String) (currentVersion nextGlobalVersion : Nat)
    (index : Nat) (event : DomainEvent) : StoredEvent :=
  { aggregateId := aggregateId
    aggregateType := aggregateType
    eventType := event.name
    eventVersion := currentVersion + index + 1
    globalVersion := some (nextGlobalVersion + index)
    eventData := event.payload }

/-- The committed branch of `appendEventsInternal`: read
`nextGlobalVersion`, build the entities from the `currentVersion` computed
before the concurrency check, batch-insert, commit. -/
def PgState.doAppend (s : PgState) (aggregateId aggregateType : String)
    (currentVersion : Nat) (events : List DomainEvent) :
    Except StoreError Unit × PgState :=
  let nextGlobalVersion := s.nextGlobalVer
  let eventEntities :=
    mapIdxFrom (PgState.mkEntity aggregateId aggregateType currentVersion nextGlobalVersion) 0 events
  (Except.ok (), { s with rows := s.rows ++ eventEntities })

/-- `PostgreSqlEventStore.appendEventsInternal`: read the aggregate's
current version inside the transaction; if `expectedVersion` is supplied
and differs, roll back and fail with
`{aggregateId, expected, current}`; otherwise append and commit. -/
def PgState.appendEventsInternal (s : PgState) (aggregateId aggregateType : String)
    (events : List DomainEvent) (expectedVersion : Option Nat) :
    Except StoreError Unit × PgState :=
  let currentVersion := s.getCurrentVersion aggregateId
  match expectedVersion with
  | some expected =>
    if currentVersion ≠ expected then
      (Except.error { errorKey := "EVENT_STORE_CONCURRENCY_ERROR"
                      aggregateId := some aggregateId
                      expected := some expected
                      current := some currentVersion }, s)
    else s.doAppend aggregateId aggregateType currentVersion events
  | none => s.doAppend aggregateId aggregateType currentVersion events

/-- `PostgreSqlEventStore.getEventsByType`: `WHERE event_type = :eventType`
plus `AND global_version > :fromVersion` when given, `ORDER BY
global_version ASC`. -/
def PgState.getEventsByType (s : PgState) (eventType : String) (fromVersion : Option Nat) :
    Except StoreError (List StoredEvent) :=
  Except.ok ((s.rows.filter (fun e =>
    e.eventType == eventType &&
    (match fromVersion with
      | none => true
      | some v => decide (v < e.globalVersion.getD 0)))).mergeSort leGlobal)

/-- `PostgreSqlEventStore.getAllEvents`: optional `global_version >
:fromVersion` and `global_version <= :toVersion` conditions, `ORDER BY
global_version ASC`. -/
def PgState.getAllEvents (s : PgState) (fromVersion toVersion : Option Nat) :
    Except StoreError (List StoredEvent) :=
  Except.ok ((s.rows.filter (fun e =>
    (match fromVersion with
      | none => true
      | some v => decide (v < e.globalVersion.getD 0)) &&
    (match toVersion with
      | none => true
      | some v => decide (e.globalVersion.getD 0 ≤ v)))).mergeSort leGlobal)

/-- `PostgreSqlEventStore.saveSnapshotInternal`: `repository.save` of an
entity whose primary key is `aggregateId`, i.e. an upsert of the single
row for that aggregate. -/
def PgState.saveSnapshotInternal (s : PgState) (aggregateId aggregateType : String)
    (snapshot : Nat) (version : Nat) : Except StoreError Unit × PgState :=
  (Except.ok (),
   { s with snapshots := mapSet aggregateId ⟨aggregateType, snapshot, version⟩ s.snapshots })

/-- `PostgreSqlEventStore.getSnapshot`: `findOne` by the primary key
`aggregateId`; a missing row yields `Result.ok(null)`. -/
def PgState.getSnapshot (s : PgState) (aggregateId : String) :
    Except StoreError (Option SnapshotRec) :=
  Except.ok ((mapGet aggregateId s.snapshots).map
    (fun row => { snapshot := row.snapshotData, version := row.version }))

/-! ## Retry combinator (`retryWithBackoff`, src/shared/utils/retry.util.ts) -/

/-- The `while (attempt <= maxRetries)` loop of `retryWithBackoff`.  The
operation is modelled as a function from the invocation index (the value
of `attempt` when it is called) to an outcome; sleeping and logging have
no observable effect in the model.  Returns the final outcome together
with the number of invocations performed. -/
def retryGo (op : Nat → Except ε α) (maxRetries : Nat) (shouldRetry : ε → Bool)
    (attempt : Nat) : Except ε α × Nat :=
  match op attempt with
  | Except.ok v => (Except.ok v, attempt + 1)
  | Except.error e =>
    if shouldRetry e then
      if h : maxRetries < attempt + 1 then (Except.error e, attempt + 1)
      else retryGo op maxRetries shouldRetry (attempt + 1)
    else (Except.error e, attempt + 1)
termination_by maxRetries + 1 - attempt
decreasing_by omega

/-- `retryWithBackoff(operation, options)`: run the loop from `attempt = 0`. -/
def retryWithBackoff (op : Nat → Except ε α) (maxRetries : Nat) (shouldRetry : ε → Bool) :
    Except ε α × Nat :=
  retryGo op maxRetries shouldRetry 0

/-! ## Circuit breaker (`CircuitBreaker`, src/shared/utils/retry.util.ts) -/

/-- The three circuit states. -/
inductive CBState where
  | CLOSED
  | OPEN
  | HALF_OPEN
deriving DecidableEq, Repr

/-- The resolved constructor options (`failureThreshold`, `successThreshold`,
`timeout`) after the `?? default` applications. -/
structure CBConfig where
  failureThreshold : Nat
  successThreshold : Nat
  timeout : Nat
deriving DecidableEq, Repr

/-- A `CircuitBreaker` instance: its options plus the four mutable fields.
Time is an abstract `Nat` supplied to each call in place of `Date.now()`. -/
structure CircuitBreaker where
  options : CBConfig
  state : CBState
  failureCount : Nat
  successCount : Nat
  nextAttempt : Nat
deriving DecidableEq, Repr

/-- A freshly constructed breaker at time `now`: `CLOSED`, zero counters,
`nextAttempt = Date.now()`. -/
def CircuitBreaker.init (options : CBConfig) (now : Nat) : CircuitBreaker :=
  { options := options, state := CBState.CLOSED, failureCount := 0,
    successCount := 0, nextAttempt := now }

/-- `CircuitBreaker.onSuccess`: clear the failure counter; in `HALF_OPEN`
count the success and close the circuit once `successThreshold` is
reached. -/
def CircuitBreaker.onSuccess (cb : CircuitBreaker) : CircuitBreaker :=
  let cb1 := { cb with failureCount := 0 }
  match cb1.state with
  | CBState.HALF_OPEN =>
    let sc := cb1.successCount + 1
    if cb1.options.successThreshold ≤ sc then
      { cb1 with state := CBState.CLOSED, successCount := 0 }
    else { cb1 with successCount := sc }
  | _ => cb1

/-- `CircuitBreaker.onFailure`: clear the success counter, count the
failure, and open the circuit (setting `nextAttempt = now + timeout`) once
`failureThreshold` is reached. -/
def CircuitBreaker.onFailure (cb : CircuitBreaker) (now : Nat) : CircuitBreaker :=
  let cb1 := { cb with successCount := 0, failureCount := cb.failureCount + 1 }
  if cb1.options.failureThreshold ≤ cb1.failureCount then
    { cb1 with state := CBState.OPEN, nextAttempt := now + cb1.options.timeout }
  else cb1

/-- Outcome of `CircuitBreaker.execute`: the operation's value, the
operation's rethrown error, or a `CircuitBreakerOpenError`. -/
inductive ExecOutcome (ε α : Type) where
  | ok (v : α)
  | opError (e : ε)
  | circuitOpenError
deriving DecidableEq, Repr

/-- The `try { await operation() } catch` tail of `execute`: invoke the
operation and dispatch to `onSuccess` / `onFailure`. -/
def CircuitBreaker.runOp (cb : CircuitBreaker) (now : Nat) (op : Except ε α) :
    ExecOutcome ε α × CircuitBreaker × Bool :=
  match op with
  | Except.ok v => (ExecOutcome.ok v, cb.onSuccess, true)
  | Except.error e => (ExecOutcome.opError e, cb.onFailure now, true)

/-- `CircuitBreaker.execute` at time `now`, with the wrapped operation's
outcome given by `op`.  The third component records whether the operation
was invoked. -/
def CircuitBreaker.execute (cb : CircuitBreaker) (now : Nat) (op : Except ε α) :
    ExecOutcome ε α × CircuitBreaker × Bool :=
  match cb.state with
  | CBState.OPEN =>
    if now < cb.nextAttempt then (ExecOutcome.circuitOpenError, cb, false)
    else ({ cb with state := CBState.HALF_OPEN }).runOp now op
  | _ => cb.runOp now op

/-- Iterate `execute` with a failing operation `n` times at time `now`. -/
def CircuitBreaker.runFailures (cb : CircuitBreaker) (now : Nat) (e : ε) : Nat → CircuitBreaker
  | 0 => cb
  | n + 1 =>
    CircuitBreaker.runFailures
      ((CircuitBreaker.execute (α := Unit) cb now (Except.error e)).2.1) now e n

/-- Iterate `execute` with a succeeding operation `n` times at time `now`. -/
def CircuitBreaker.runSuccesses (cb : CircuitBreaker) (now : Nat) (v : α) : Nat → CircuitBreaker
  | 0 => cb
  | n + 1 =>
    CircuitBreaker.runSuccesses
      ((CircuitBreaker.execute (ε := Unit) cb now (Except.ok v)).2.1) now v n

/-! ## Error classifier (`PostgreSqlEventStore.isTransientError`) -/

/-- A caught error value as inspected by `isTransientError`: `none` models
`null` / `undefined` / non-object errors, `some` an object whose optional
`code` and `message` properties are modelled by the `Option` fields. -/
structure JsError where
  code : Option String
  message : Option String
deriving DecidableEq, Repr

/-- Character-list prefix test (models `String.prototype.startsWith`). -/
def beginsWith : List Char → List Char → Bool
  | [], _ => true
  | _ :: _, [] => false
  | a :: as, b :: bs => a = b && beginsWith as bs

/-- Character-list substring test (models `String.prototype.includes`). -/
def containsSub (needle : List Char) : List Char → Bool
  | [] => needle.isEmpty
  | c :: t => beginsWith needle (c :: t) || containsSub needle t

/-- `err.code?.startsWith(p) === true`. -/
def codeStarts (code : Option String) (p : String) : Bool :=
  match code with
  | none => false
  | some c => beginsWith p.toList c.toList

/-- ASCII lower-casing of a character list (models
`String.prototype.toLowerCase` on the messages involved). -/
def lowerChars (l : List Char) : List Char :=
  l.map Char.toLower

/-- The network/timeout message test of `isTransientError`:
`message.length > 0` and the lowercased message includes one of the six
substrings. -/
def msgMatches (message : List Char) : Bool :=
  decide (0 < message.length) &&
  (containsSub "timeout".toList message ||
   containsSub "connection".toList message ||
   containsSub "network".toList message ||
   containsSub "econnrefused".toList message ||
   containsSub "enotfound".toList message ||
   containsSub "etimedout".toList message)

/-- The transient-code tests of `isTransientError`, in source order:
classes `08`, `53`, `57`, then the codes `40001`, `40P01`, `55P03`. -/
def transientCode (code : Option String) : Bool :=
  codeStarts code "08" || codeStarts code "53" || codeStarts code "57" ||
  code == some "40001" || code == some "40P01" || code == some "55P03"

/-- The permanent-code tests of `isTransientError`, in source order:
`23505`, `23503`, `23514`, then classes `22` and `42`. -/
def permanentCode (code : Option String) : Bool :=
  code == some "23505" || code == some "23503" || code == some "23514" ||
  codeStarts code "22" || codeStarts code "42"

/-- `PostgreSqlEventStore.isTransientError`, with the source's check order:
non-objects are not transient; transient code classes and codes return
`true`; then the lowercased message is tested against the network/timeout
substrings; then the permanent codes return `false`; everything else
defaults to `false`. -/
def isTransientError (err : Option JsError) : Bool :=
  match err with
  | none => false
  | some e =>
    if codeStarts e.code "08" then true
    else if codeStarts e.code "53" then true
    else if codeStarts e.code "57" then true
    else if e.code == some "40001" then true
    else if e.code == some "40P01" then true
    else if e.code == some "55P03" then true
    else
      let message := lowerChars (((e.message.map String.toList).getD []))
      if msgMatches message then true
      else if e.code == some "23505" then false
      else if e.code == some "23503" then false
      else if e.code == some "23514" then false
      else if codeStarts e.code "22" then false
      else if codeStarts e.code "42" then false
      else false

deriving instance DecidableEq for Except

/-! ## Lemmas about the retry loop -/

/-- A successful invocation returns immediately. -/
theorem retryGo_ok (op : Nat → Except ε α) (m : Nat) (sr : ε → Bool) (a : Nat) (v : α)
    (h : op a = Except.ok v) : retryGo op m sr a = (Except.ok v, a + 1) := by
  rw [retryGo, h]

/-- A non-retryable error is rethrown immediately. -/
theorem retryGo_noRetry (op : Nat → Except ε α) (m : Nat) (sr : ε → Bool) (a : Nat) (e : ε)
    (h : op a = Except.error e) (h2 : sr e = false) :
    retryGo op m sr a = (Except.error e, a + 1) := by
  rw [retryGo, h]
  simp [h2]

/-- A retryable error on the last permitted attempt is rethrown. -/
theorem retryGo_exhaust (op : Nat → Except ε α) (m : Nat) (sr : ε → Bool) (a : Nat) (e : ε)
    (h : op a = Except.error e) (h2 : sr e = true) (h3 : m < a + 1) :
    retryGo op m sr a = (Except.error e, a + 1) := by
  rw [retryGo, h]
  simp [h2, h3]

/-- A retryable error with attempts remaining loops. -/
theorem retryGo_step (op : Nat → Except ε α) (m : Nat) (sr : ε → Bool) (a : Nat) (e : ε)
    (h : op a = Except.error e) (h2 : sr e = true) (h3 : a + 1 ≤ m) :
    retryGo op m sr a = retryGo op m sr (a + 1) := by
  rw [retryGo, h]
  simp only [h2, if_true]
  rw [dif_neg (by omega)]

/-- Bounds on the number of invocations the loop performs. -/
theorem retryGo_count (op : Nat → Except ε α) (m : Nat) (sr : ε → Bool) :
    ∀ fuel a, m + 1 - a ≤ fuel → a ≤ m →
      (retryGo op m sr a).2 ≤ m + 1 ∧ a + 1 ≤ (retryGo op m sr a).2 := by
  intro fuel
  induction fuel with
  | zero => intro a hf ha; omega
  | succ n ih =>
    intro a hf ha
    cases hop : op a with
    | ok v => rw [retryGo_ok op m sr a v hop]; omega
    | error e =>
      cases hsr : sr e with
      | false => rw [retryGo_noRetry op m sr a e hop hsr]; omega
      | true =>
        by_cases hm : m < a + 1
        · rw [retryGo_exhaust op m sr a e hop hsr hm]; omega
        · rw [retryGo_step op m sr a e hop hsr (by omega)]
          have := ih (a + 1) (by omega) (by omega)
          omega

/-- On success the returned value is the one produced by the final
invocation, and every earlier invocation failed with a retryable error. -/
theorem retryGo_firstSuccess (op : Nat → Except ε α) (m : Nat) (sr : ε → Bool) (v : α) :
    ∀ fuel a, m + 1 - a ≤ fuel →
      (retryGo op m sr a).1 = Except.ok v →
      op ((retryGo op m sr a).2 - 1) = Except.ok v ∧
      ∀ j, a ≤ j → j < (retryGo op m sr a).2 - 1 → ∃ e, op j = Except.error e ∧ sr e = true := by
  intro fuel
  induction fuel with
  | zero =>
    intro a hf hok
    cases hop : op a with
    | ok w =>
      rw [retryGo_ok op m sr a w hop] at hok ⊢
      cases hok
      refine ⟨by simpa using hop, ?_⟩
      intro j hj1 hj2
      simp at hj2
      omega
    | error e =>
      cases hsr : sr e with
      | false => rw [retryGo_noRetry op m sr a e hop hsr] at hok; cases hok
      | true =>
        rw [retryGo_exhaust op m sr a e hop hsr (by omega)] at hok; cases hok
  | succ n ih =>
    intro a hf hok
    cases hop : op a with
    | ok w =>
      rw [retryGo_ok op m sr a w hop] at hok ⊢
      cases hok
      refine ⟨by simpa using hop, ?_⟩
      intro j hj1 hj2
      simp at hj2
      omega
    | error e =>
      cases hsr : sr e with
      | false => rw [retryGo_noRetry op m sr a e hop hsr] at hok; cases hok
      | true =>
        by_cases hm : m < a + 1
        · rw [retryGo_exhaust op m sr a e hop hsr hm] at hok; cases hok
        · rw [retryGo_step op m sr a e hop hsr (by omega)] at hok ⊢
          obtain ⟨h1, h2⟩ := ih (a + 1) (by omega) hok
          refine ⟨h1, ?_⟩
          intro j hj1 hj2
          rcases Nat.eq_or_lt_of_le hj1 with rfl | hlt
          · exact ⟨e, hop, hsr⟩
          · exact h2 j (by omega) hj2

/-- If every permitted attempt fails with a retryable error, the loop ends
by rethrowing the error of the final attempt after `maxRetries + 1`
invocations. -/
theorem retryGo_allFail (op : Nat → Except ε α) (m : Nat) (sr : ε → Bool) :
    ∀ fuel a, m + 1 - a ≤ fuel → a ≤ m →
      (∀ j, a ≤ j → j ≤ m → ∃ e, op j = Except.error e ∧ sr e = true) →
      ∃ e, op m = Except.error e ∧ retryGo op m sr a = (Except.error e, m + 1) := by
  intro fuel
  induction fuel with
  | zero => intro a hf ha; omega
  | succ n ih =>
    intro a hf ha hall
    by_cases hm : a = m
    · subst hm
      obtain ⟨e, hop, hsr⟩ := hall a le_rfl le_rfl
      exact ⟨e, hop, retryGo_exhaust op a sr a e hop hsr (by omega)⟩
    · obtain ⟨e, hop, hsr⟩ := hall a le_rfl (by omega)
      rw [retryGo_step op m sr a e hop hsr (by omega)]
      exact ih (a + 1) (by omega) (by omega) (fun j hj1 hj2 => hall j (by omega) hj2)

/-- C4: `retryWithBackoff` invokes the operation at most `maxRetries + 1`
times and returns the value of the first successful invocation (every
earlier invocation having failed with a retryable error); an operation
failing twice then succeeding (with `maxRetries ≥ 2` and retryable errors)
returns the success value after exactly 3 invocations; a first failure
with `shouldRetry(error) = false` is rethrown after exactly 1 invocation;
and when every attempt fails with retryable errors the last error is
rethrown after `maxRetries + 1` invocations. -/
theorem c4_retryWithBackoff {ε α : Type} :
    (∀ (op : Nat → Except ε α) (m : Nat) (sr : ε → Bool),
        (retryWithBackoff op m sr).2 ≤ m + 1) ∧
    (∀ (op : Nat → Except ε α) (m : Nat) (sr : ε → Bool) (v : α),
        (retryWithBackoff op m sr).1 = Except.ok v →
        op ((retryWithBackoff op m sr).2 - 1) = Except.ok v ∧
        ∀ j, j < (retryWithBackoff op m sr).2 - 1 → ∃ e, op j = Except.error e ∧ sr e = true) ∧
    (∀ (op : Nat → Except ε α) (m : Nat) (sr : ε → Bool) (e0 e1 : ε) (v : α),
        2 ≤ m → op 0 = Except.error e0 → sr e0 = true → op 1 = Except.error e1 → sr e1 = true →
        op 2 = Except.ok v → retryWithBackoff op m sr = (Except.ok v, 3)) ∧
    (∀ (op : Nat → Except ε α) (m : Nat) (sr : ε → Bool) (e : ε),
        op 0 = Except.error e → sr e = false → retryWithBackoff op m sr = (Except.error e, 1)) ∧
    (∀ (op : Nat → Except ε α) (m : Nat) (sr : ε → Bool),
        (∀ j, j ≤ m → ∃ e, op j = Except.error e ∧ sr e = true) →
        ∃ e, op m = Except.error e ∧ retryWithBackoff op m sr = (Except.error e, m + 1)) := by
  refine ⟨?_, ?_, ?_, ?_, ?_⟩
  · intro op m sr
    exact (retryGo_count op m sr (m + 1) 0 (by omega) (by omega)).1
  · intro op m sr v hok
    obtain ⟨h1, h2⟩ := retryGo_firstSuccess op m sr v (m + 1) 0 (by omega) hok
    exact ⟨h1, fun j hj => h2 j (by omega) hj⟩
  · intro op m sr e0 e1 v hm h0 hs0 h1 hs1 h2
    unfold retryWithBackoff
    rw [retryGo_step op m sr 0 e0 h0 hs0 (by omega),
        retryGo_step op m sr 1 e1 h1 hs1 (by omega),
        retryGo_ok op m sr 2 v h2]
  · intro op m sr e h0 hs0
    exact retryGo_noRetry op m sr 0 e h0 hs0
  · intro op m sr hall
    exact retryGo_allFail op m sr (m + 1) 0 (by omega) (by omega)
      (fun j _ hj2 => hall j hj2)

/-- C4 witness: an operation failing on invocations 0 and 1 and succeeding
on invocation 2, run with `maxRetries = 3` and an always-true
`shouldRetry`, returns 42 after exactly 3 invocations. -/
theorem c4_retryWithBackoff_witness :
    retryWithBackoff (fun n => if n < 2 then Except.error "transient" else Except.ok (42 : Nat))
      3 (fun _ => true) = (Except.ok 42, 3) :=
  c4_retryWithBackoff.2.2.1 _ 3 _ "transient" "transient" 42 (by omega) rfl rfl rfl rfl rfl

/-! ## Lemmas about the error classifier -/

/-- First two characters of a character list, when present. -/
def firstTwo : List Char → Option (Char × Char)
  | a :: b :: _ => some (a, b)
  | _ => none

/-- Peeling one character off a successful prefix test. -/
theorem beginsWith_first {a : Char} {as l : List Char} (h : beginsWith (a :: as) l = true) :
    ∃ t, l = a :: t ∧ beginsWith as t = true := by
  cases l with
  | nil => simp [beginsWith] at h
  | cons b t =>
    simp [beginsWith] at h
    exact ⟨t, by rw [h.1], h.2⟩

/-- A two-character prefix determines the first two characters. -/
theorem beginsWith_pair {a b : Char} {l : List Char} (h : beginsWith [a, b] l = true) :
    firstTwo l = some (a, b) := by
  obtain ⟨t, rfl, h2⟩ := beginsWith_first h
  obtain ⟨t2, rfl, h3⟩ := beginsWith_first h2
  rfl

/-- Every permanent code starts with `23`, `22` or `42`. -/
theorem permanent_firstTwo (s : String) (h : permanentCode (some s) = true) :
    firstTwo s.toList = some ('2', '3') ∨ firstTwo s.toList = some ('2', '2') ∨
    firstTwo s.toList = some ('4', '2') := by
  simp only [permanentCode, Bool.or_eq_true, beq_iff_eq, Option.some.injEq, codeStarts] at h
  rcases h with ((((h | h) | h) | h) | h) <;> try (subst h; simp [firstTwo])
  · exact Or.inr (Or.inl (beginsWith_pair h))
  · exact Or.inr (Or.inr (beginsWith_pair h))

/-- Every transient code starts with `08`, `53`, `57`, `40` or `55`. -/
theorem transient_firstTwo (s : String) (h : transientCode (some s) = true) :
    firstTwo s.toList = some ('0', '8') ∨ firstTwo s.toList = some ('5', '3') ∨
    firstTwo s.toList = some ('5', '7') ∨ firstTwo s.toList = some ('4', '0') ∨
    firstTwo s.toList = some ('5', '5') := by
  simp only [transientCode, Bool.or_eq_true, beq_iff_eq, Option.some.injEq, codeStarts] at h
  rcases h with (((((h | h) | h) | h) | h) | h)
  · exact Or.inl (beginsWith_pair h)
  · exact Or.inr (Or.inl (beginsWith_pair h))
  · exact Or.inr (Or.inr (Or.inl (beginsWith_pair h)))
  · subst h; simp [firstTwo]
  · subst h; simp [firstTwo]
  · subst h; simp [firstTwo]

/-- The permanent and transient code buckets are disjoint. -/
theorem permanent_not_transient (c : Option String) (h : permanentCode c = true) :
    transientCode c = false := by
  cases c with
  | none => simp [permanentCode, codeStarts] at h
  | some s =>
    by_contra hne
    have ht : transientCode (some s) = true := by
      cases hx : transientCode (some s)
      · exact absurd hx hne
      · rfl
    rcases permanent_firstTwo s h with hp | hp | hp <;>
      rcases transient_firstTwo s ht with hq | hq | hq | hq | hq <;>
        (rw [hp] at hq; simp at hq)

/-- The classifier, as a whole, returns `true` exactly when a transient
code or a matching message text is present: every branch before the
message test returns `true`, and every branch after it returns `false`. -/
theorem isTransientError_eq (e : JsError) :
    isTransientError (some e) =
      (transientCode e.code ||
       msgMatches (lowerChars ((e.message.map String.toList).getD []))) := by
  simp only [isTransientError, transientCode]
  cases h1 : codeStarts e.code "08" <;>
  cases h2 : codeStarts e.code "53" <;>
  cases h3 : codeStarts e.code "57" <;>
  cases h4 : e.code == some "40001" <;>
  cases h5 : e.code == some "40P01" <;>
  cases h6 : e.code == some "55P03" <;>
  cases h7 : msgMatches (lowerChars ((e.message.map String.toList).getD [])) <;>
  simp [h1, h2, h3, h4, h5, h6, h7]

/-- C7 (amended): `isTransientError` returns `true` for every error object
whose code is a connection failure (`08xxx`), resource exhaustion
(`53xxx`), operator intervention (`57xxx`), deadlock or serialization
failure (`40001`, `40P01`) or lock-wait timeout (`55P03`), and for every
error object whose lowercased message contains network/timeout text; it
returns `false` for uniqueness (`23505`), foreign-key (`23503`) and check
(`23514`) violations, data-type errors (`22xxx`) and syntax errors
(`42xxx`) provided the message contains no network/timeout text (the
message test precedes the permanent-code tests in the source); the
transient and permanent code buckets are disjoint; and unrecognized and
non-object errors are classified as not transient. -/
theorem c7_isTransientError :
    (∀ e : JsError, transientCode e.code = true → isTransientError (some e) = true) ∧
    (∀ e : JsError,
        msgMatches (lowerChars ((e.message.map String.toList).getD [])) = true →
        isTransientError (some e) = true) ∧
    (∀ e : JsError, permanentCode e.code = true →
        msgMatches (lowerChars ((e.message.map String.toList).getD [])) = false →
        isTransientError (some e) = false) ∧
    (∀ e : JsError, transientCode e.code = false →
        msgMatches (lowerChars ((e.message.map String.toList).getD [])) = false →
        isTransientError (some e) = false) ∧
    (∀ c : Option String, permanentCode c = true → transientCode c = false) ∧
    isTransientError none = false := by
  refine ⟨?_, ?_, ?_, ?_, permanent_not_transient, rfl⟩
  · intro e h
    rw [isTransientError_eq, h, Bool.true_or]
  · intro e h
    rw [isTransientError_eq, h, Bool.or_true]
  · intro e hp hm
    rw [isTransientError_eq, hm, permanent_not_transient e.code hp]
    rfl
  · intro e ht hm
    rw [isTransientError_eq, hm, ht]
    rfl

/-- C7 counterexample: an error carrying the uniqueness-violation code
`23505` but a message containing the word `connection` is classified as
transient, because the message test precedes the permanent-code tests;
the claim that every `23505` error is classified not-transient is
therefore false. -/
theorem c7_counterexample :
    isTransientError (some ⟨some "23505", some "connection reset by peer"⟩) = true := by
  decide

/-- C7 witness: a deadlock code is transient, a foreign-key violation with
an ordinary message is not, and an unrecognized code is not. -/
theorem c7_isTransientError_witness :
    isTransientError (some ⟨some "40P01", none⟩) = true ∧
    isTransientError (some ⟨some "23503", some "duplicate key value violates constraint"⟩)
      = false ∧
    isTransientError (some ⟨some "XX999", some "mystery"⟩) = false :=
  ⟨c7_isTransientError.1 _ (by decide),
   c7_isTransientError.2.2.1 _ (by decide) (by decide),
   c7_isTransientError.2.2.2.1 _ (by decide) (by decide)⟩

/-! ## Lemmas about the circuit breaker -/


/-- Unfolding one failing call at the end of an iterated failure run. -/
theorem runFailures_succ (cb : CircuitBreaker) (now : Nat) (e : ε) (n : Nat) :
    cb.runFailures now e (n + 1) =
      (CircuitBreaker.execute (α := Unit) (cb.runFailures now e n) now (Except.error e)).2.1 := by
  induction n generalizing cb with
  | zero => rfl
  | succ k ih =>
    rw [CircuitBreaker.runFailures, ih]
    rfl

/-- Unfolding one succeeding call at the end of an iterated success run. -/
theorem runSuccesses_succ (cb : CircuitBreaker) (now : Nat) (v : α) (n : Nat) :
    cb.runSuccesses now v (n + 1) =
      (CircuitBreaker.execute (ε := Unit) (cb.runSuccesses now v n) now (Except.ok v)).2.1 := by
  induction n generalizing cb with
  | zero => rfl
  | succ k ih =>
    rw [CircuitBreaker.runSuccesses, ih]
    rfl

/-- Fewer than `failureThreshold` consecutive failures from a fresh breaker
leave it `CLOSED` with the failure counter equal to the number of
failures. -/
theorem runFailures_closed (opts : CBConfig) (t : Nat) (e : ε) :
    ∀ k, k < opts.failureThreshold →
      (CircuitBreaker.init opts t).runFailures t e k =
        { options := opts, state := CBState.CLOSED, failureCount := k,
          successCount := 0, nextAttempt := t } := by
  intro k
  induction k with
  | zero => intro _; rfl
  | succ n ih =>
    intro hk
    rw [runFailures_succ, ih (by omega)]
    simp only [CircuitBreaker.execute, CircuitBreaker.runOp, CircuitBreaker.onFailure]
    rw [if_neg (by simp; omega)]

/-- C5: a breaker configured with `failureThreshold = N ≥ 1` is `OPEN`
after `N` consecutive failed executions from its initial state, with
`nextAttempt = t + timeout`; and every `execute` on an `OPEN` breaker
before `nextAttempt` returns `CircuitBreakerOpenError`, leaves the breaker
unchanged, and does not invoke the wrapped operation. -/
theorem c5_circuitBreaker {ε α : Type} :
    (∀ (opts : CBConfig) (t : Nat) (e : ε), 1 ≤ opts.failureThreshold →
        ((CircuitBreaker.init opts t).runFailures t e opts.failureThreshold).state
          = CBState.OPEN ∧
        ((CircuitBreaker.init opts t).runFailures t e opts.failureThreshold).nextAttempt
          = t + opts.timeout) ∧
    (∀ (cb : CircuitBreaker) (now : Nat) (op : Except ε α), cb.state = CBState.OPEN →
        now < cb.nextAttempt →
        cb.execute now op = (ExecOutcome.circuitOpenError, cb, false)) := by
  constructor
  · intro opts t e hN
    obtain ⟨n, hn⟩ : ∃ n, opts.failureThreshold = n + 1 := ⟨opts.failureThreshold - 1, by omega⟩
    rw [hn, runFailures_succ, runFailures_closed opts t e n (by omega)]
    simp only [CircuitBreaker.execute, CircuitBreaker.runOp, CircuitBreaker.onFailure]
    rw [if_pos (by simp [hn])]
    exact ⟨rfl, rfl⟩
  · intro cb now op hst hlt
    cases cb with
    | mk o st f sc na =>
      simp only at hst hlt
      subst hst
      simp [CircuitBreaker.execute, hlt]

/-- Fewer than `successThreshold` consecutive successes on a `HALF_OPEN`
breaker leave it `HALF_OPEN`, counting the successes. -/
theorem runSuccesses_halfOpen (cb : CircuitBreaker) (now : Nat) (v : α)
    (hst : cb.state = CBState.HALF_OPEN) (hsc : cb.successCount = 0) :
    ∀ k, k < cb.options.successThreshold →
      (cb.runSuccesses now v k).state = CBState.HALF_OPEN ∧
      (cb.runSuccesses now v k).successCount = k ∧
      (cb.runSuccesses now v k).options = cb.options := by
  intro k
  induction k with
  | zero => intro _; exact ⟨hst, hsc, rfl⟩
  | succ n ih =>
    intro hk
    obtain ⟨h1, h2, h3⟩ := ih (by omega)
    rw [runSuccesses_succ]
    cases hd : cb.runSuccesses now v n with
    | mk o st f sc na =>
      rw [hd] at h1 h2 h3
      simp only at h1 h2 h3
      subst h1; subst h2; subst h3
      simp only [CircuitBreaker.execute, CircuitBreaker.runOp, CircuitBreaker.onSuccess]
      rw [if_neg (by simp; omega)]
      exact ⟨rfl, rfl, rfl⟩

/-- C6: an `execute` on an `OPEN` breaker whose cooldown has elapsed
performs exactly one trial invocation of the operation from the
`HALF_OPEN` state (in this sequential model each trial resolves before the
next call); and from a `HALF_OPEN` breaker with a cleared success counter,
`successThreshold ≥ 1` consecutive successful calls transition it to
`CLOSED`, the state remaining `HALF_OPEN` at every earlier point. -/
theorem c6_circuitBreaker {ε α : Type} :
    (∀ (cb : CircuitBreaker) (now : Nat) (op : Except ε α), cb.state = CBState.OPEN →
        cb.nextAttempt ≤ now →
        cb.execute now op = CircuitBreaker.runOp { cb with state := CBState.HALF_OPEN } now op ∧
        (cb.execute now op).2.2 = true) ∧
    (∀ (cb : CircuitBreaker) (now : Nat) (v : α), cb.state = CBState.HALF_OPEN →
        cb.successCount = 0 → 1 ≤ cb.options.successThreshold →
        (cb.runSuccesses now v cb.options.successThreshold).state = CBState.CLOSED ∧
        ∀ k, k < cb.options.successThreshold →
          (cb.runSuccesses now v k).state = CBState.HALF_OPEN) := by
  constructor
  · intro cb now op hst hle
    cases cb with
    | mk o st f sc na =>
      simp only at hst hle
      subst hst
      have hnot : ¬ now < na := by omega
      constructor
      · simp [CircuitBreaker.execute, hnot]
      · simp [CircuitBreaker.execute, hnot, CircuitBreaker.runOp]
        cases op <;> simp
  · intro cb now v hst hsc hm
    constructor
    · obtain ⟨m, hmm⟩ : ∃ m, cb.options.successThreshold = m + 1 :=
        ⟨cb.options.successThreshold - 1, by omega⟩
      obtain ⟨h1, h2, h3⟩ := runSuccesses_halfOpen cb now v hst hsc m (by omega)
      rw [hmm, runSuccesses_succ]
      cases hd : cb.runSuccesses now v m with
      | mk o st f sc na =>
        rw [hd] at h1 h2 h3
        simp only at h1 h2 h3
        subst h1; subst h2; subst h3
        simp only [CircuitBreaker.execute, CircuitBreaker.runOp, CircuitBreaker.onSuccess]
        rw [if_pos (by simp [hmm])]
    · intro k hk
      exact (runSuccesses_halfOpen cb now v hst hsc k hk).1

/-- C10 (amended): a single failed execution while `HALF_OPEN` leaves the
breaker `HALF_OPEN` (failure counter 1, success counter 0, subsequent
calls still invoking the operation) provided the failure counter was 0 on
entry — i.e. a trial success preceded it — and `failureThreshold ≥ 2`;
in general, an `execute` whose operation fails leaves the breaker `OPEN`
exactly when the incremented consecutive-failure counter reaches
`failureThreshold` or the breaker was already `OPEN` inside its cooldown,
regardless of state.  Because the `OPEN → HALF_OPEN` transition does not
reset the failure counter, the first trial failure after a reopening
reopens the circuit immediately (see the counterexample). -/
theorem c10_circuitBreaker {ε α : Type} :
    (∀ (cb : CircuitBreaker) (now : Nat) (e : ε), cb.state = CBState.HALF_OPEN →
        cb.failureCount = 0 → 2 ≤ cb.options.failureThreshold →
        (CircuitBreaker.execute (α := α) cb now (Except.error e)).2.1.state
          = CBState.HALF_OPEN ∧
        (CircuitBreaker.execute (α := α) cb now (Except.error e)).2.1.failureCount = 1 ∧
        (CircuitBreaker.execute (α := α) cb now (Except.error e)).2.1.successCount = 0 ∧
        ∀ (now2 : Nat) (op : Except ε α),
          (((CircuitBreaker.execute (α := α) cb now (Except.error e)).2.1).execute
            now2 op).2.2 = true) ∧
    (∀ (cb : CircuitBreaker) (now : Nat) (e : ε),
        ((CircuitBreaker.execute (α := α) cb now (Except.error e)).2.1.state = CBState.OPEN ↔
          cb.options.failureThreshold ≤ cb.failureCount + 1 ∨
          (cb.state = CBState.OPEN ∧ now < cb.nextAttempt))) := by
  constructor
  · intro cb now e hst hfc hth
    cases cb with
    | mk o st f sc na =>
      simp only at hst hfc hth
      subst hst; subst hfc
      simp only [CircuitBreaker.execute, CircuitBreaker.runOp, CircuitBreaker.onFailure]
      rw [if_neg (by simp; omega)]
      refine ⟨rfl, rfl, rfl, ?_⟩
      intro now2 op
      simp [CircuitBreaker.execute, CircuitBreaker.runOp]
      cases op <;> simp
  · intro cb now e
    cases cb with
    | mk o st f sc na =>
      cases st with
      | CLOSED =>
        simp only [CircuitBreaker.execute, CircuitBreaker.runOp, CircuitBreaker.onFailure]
        by_cases h : o.failureThreshold ≤ f + 1
        · rw [if_pos (by simpa using h)]
          simp [h]
        · rw [if_neg (by simpa using h)]
          simp [h]
      | HALF_OPEN =>
        simp only [CircuitBreaker.execute, CircuitBreaker.runOp, CircuitBreaker.onFailure]
        by_cases h : o.failureThreshold ≤ f + 1
        · rw [if_pos (by simpa using h)]
          simp [h]
        · rw [if_neg (by simpa using h)]
          simp [h]
      | OPEN =>
        by_cases hlt : now < na
        · simp [CircuitBreaker.execute, hlt]
        · simp only [CircuitBreaker.execute, CircuitBreaker.runOp, CircuitBreaker.onFailure]
          rw [if_neg (by simpa using hlt)]
          simp only
          by_cases h : o.failureThreshold ≤ f + 1
          · rw [if_pos (by simpa using h)]
            simp [h, hlt]
          · rw [if_neg (by simpa using h)]
            simp [h, hlt]

/-- C10 counterexample: with `failureThreshold = 2 > 1`, a breaker opened
by two failures and retried after the cooldown enters `HALF_OPEN`, invokes
the operation, and on that single failure transitions straight back to
`OPEN` — not remaining `HALF_OPEN` as the claim states — because the
failure counter still holds 2 on entry to `HALF_OPEN`.  The final conjunct
shows the same single-failure reopening directly from the reached
`HALF_OPEN` state. -/
theorem c10_counterexample :
    ((CircuitBreaker.init ⟨2, 2, 5⟩ 0).runFailures 0 () 2).state = CBState.OPEN ∧
    ((CircuitBreaker.init ⟨2, 2, 5⟩ 0).runFailures 0 () 2).nextAttempt = 5 ∧
    (CircuitBreaker.execute (α := Unit) ((CircuitBreaker.init ⟨2, 2, 5⟩ 0).runFailures 0 () 2) 5
      (Except.error ())).2.1.state = CBState.OPEN ∧
    (CircuitBreaker.execute (α := Unit) ((CircuitBreaker.init ⟨2, 2, 5⟩ 0).runFailures 0 () 2) 5
      (Except.error ())).2.2 = true ∧
    (CircuitBreaker.execute (α := Unit)
      { options := ⟨2, 2, 5⟩, state := CBState.HALF_OPEN, failureCount := 2,
        successCount := 0, nextAttempt := 5 } 5 (Except.error ())).2.1.state = CBState.OPEN := by
  decide

/-- C5 witness: a breaker with threshold 3 opens after 3 failures at time 7
and fails fast at time 10. -/
theorem c5_circuitBreaker_witness :
    ((CircuitBreaker.init ⟨3, 2, 60⟩ 7).runFailures 7 "db down" 3).state = CBState.OPEN ∧
    ((CircuitBreaker.init ⟨3, 2, 60⟩ 7).runFailures 7 "db down" 3).nextAttempt = 7 + 60 ∧
    CircuitBreaker.execute (ε := String) (α := Nat)
        ⟨⟨3, 2, 60⟩, CBState.OPEN, 3, 0, 67⟩ 10 (Except.ok 1)
      = (ExecOutcome.circuitOpenError, ⟨⟨3, 2, 60⟩, CBState.OPEN, 3, 0, 67⟩, false) :=
  ⟨((c5_circuitBreaker (ε := String) (α := Nat)).1 ⟨3, 2, 60⟩ 7 "db down" (by decide)).1,
   ((c5_circuitBreaker (ε := String) (α := Nat)).1 ⟨3, 2, 60⟩ 7 "db down" (by decide)).2,
   (c5_circuitBreaker (ε := String) (α := Nat)).2 _ 10 _ rfl (by decide)⟩

/-- C6 witness: an expired `OPEN` breaker runs one trial in `HALF_OPEN`;
two consecutive successes close it, one leaves it `HALF_OPEN`. -/
theorem c6_circuitBreaker_witness :
    (CircuitBreaker.execute (ε := String) (α := Nat)
        ⟨⟨3, 2, 60⟩, CBState.OPEN, 3, 0, 67⟩ 70 (Except.ok 5)
      = CircuitBreaker.runOp ⟨⟨3, 2, 60⟩, CBState.HALF_OPEN, 3, 0, 67⟩ 70 (Except.ok 5)) ∧
    ((CircuitBreaker.runSuccesses ⟨⟨3, 2, 60⟩, CBState.HALF_OPEN, 0, 0, 67⟩ 70 (5 : Nat)
        2).state = CBState.CLOSED) ∧
    ((CircuitBreaker.runSuccesses ⟨⟨3, 2, 60⟩, CBState.HALF_OPEN, 0, 0, 67⟩ 70 (5 : Nat)
        1).state = CBState.HALF_OPEN) :=
  ⟨((c6_circuitBreaker (ε := String) (α := Nat)).1 _ 70 _ rfl (by decide)).1,
   ((c6_circuitBreaker (ε := String) (α := Nat)).2 _ 70 _ rfl rfl (by decide)).1,
   ((c6_circuitBreaker (ε := String) (α := Nat)).2 _ 70 _ rfl rfl (by decide)).2 1 (by decide)⟩

/-- C10 witness: a `HALF_OPEN` breaker with a cleared failure counter
stays `HALF_OPEN` after one failure; a `CLOSED` breaker with counter 2 and
threshold 3 opens on the next failure exactly per the counter rule. -/
theorem c10_circuitBreaker_witness :
    (CircuitBreaker.execute (α := Nat) ⟨⟨3, 2, 60⟩, CBState.HALF_OPEN, 0, 1, 67⟩ 70
      (Except.error "boom")).2.1.state = CBState.HALF_OPEN ∧
    (CircuitBreaker.execute (α := Nat) ⟨⟨3, 2, 60⟩, CBState.HALF_OPEN, 0, 1, 67⟩ 70
      (Except.error "boom")).2.1.failureCount = 1 ∧
    (CircuitBreaker.execute (α := Nat) ⟨⟨3, 2, 60⟩, CBState.HALF_OPEN, 0, 1, 67⟩ 70
      (Except.error "boom")).2.1.successCount = 0 ∧
    ((CircuitBreaker.execute (α := Nat) ⟨⟨3, 2, 60⟩, CBState.CLOSED, 2, 0, 0⟩ 9
      (Except.error "boom")).2.1.state = CBState.OPEN ↔
      3 ≤ 2 + 1 ∨ (CBState.CLOSED = CBState.OPEN ∧ 9 < 0)) :=
  ⟨((c10_circuitBreaker (ε := String) (α := Nat)).1 _ 70 _ rfl rfl (by decide)).1,
   ((c10_circuitBreaker (ε := String) (α := Nat)).1 _ 70 _ rfl rfl (by decide)).2.1,
   ((c10_circuitBreaker (ε := String) (α := Nat)).1 _ 70 _ rfl rfl (by decide)).2.2.1,
   (c10_circuitBreaker (ε := String) (α := Nat)).2 _ 9 _⟩

/-! ## Concurrency check, empty appends and snapshots -/


/-- C1 (amended): when the supplied `expectedVersion` differs from the
aggregate's current version, both stores return a
`EVENT_STORE_CONCURRENCY_ERROR` failure carrying the expected and current
versions and leave the store state unchanged (zero events persisted); the
PostgreSQL store's error additionally carries the `aggregateId`, the
in-memory store's does not. -/
theorem c1_concurrencyCheck (mem : InMemoryState) (pg : PgState)
    (aggId aggType : String) (events : List DomainEvent) (expected : Nat)
    (hmem : currentVersionOf mem.events aggId ≠ expected)
    (hpg : pg.getCurrentVersion aggId ≠ expected) :
    mem.appendEvents aggId aggType events (some expected) =
      (Except.error ⟨"EVENT_STORE_CONCURRENCY_ERROR", none, some expected,
        some (currentVersionOf mem.events aggId)⟩, mem) ∧
    pg.appendEventsInternal aggId aggType events (some expected) =
      (Except.error ⟨"EVENT_STORE_CONCURRENCY_ERROR", some aggId, some expected,
        some (pg.getCurrentVersion aggId)⟩, pg) := by
  constructor
  · simp [InMemoryState.appendEvents, hmem]
  · simp [PgState.appendEventsInternal, hpg]

/-- C1 counterexample: a stale append on the in-memory store produces a
concurrency error whose `errorParam` has `aggregateId = none` — the
in-memory implementation puts only `{expected, current}` in the error, so
the claim that the result carries the aggregateId is false for it. -/
theorem c1_counterexample :
    (InMemoryState.empty.appendEvents "order-1" "Order" [⟨"OrderCreated", 7⟩] (some 1)).1 =
      Except.error ⟨"EVENT_STORE_CONCURRENCY_ERROR", none, some 1, some 0⟩ := by
  decide

/-- C1 witness: a stale `expectedVersion = 3` against two empty stores
(current version 0) fails with the respective concurrency errors and
changes nothing. -/
theorem c1_concurrencyCheck_witness :
    InMemoryState.empty.appendEvents "order-1" "Order" [⟨"OrderCreated", 7⟩] (some 3) =
      (Except.error ⟨"EVENT_STORE_CONCURRENCY_ERROR", none, some 3, some 0⟩,
        InMemoryState.empty) ∧
    PgState.empty.appendEventsInternal "order-1" "Order" [⟨"OrderCreated", 7⟩] (some 3) =
      (Except.error ⟨"EVENT_STORE_CONCURRENCY_ERROR", some "order-1", some 3, some 0⟩,
        PgState.empty) :=
  c1_concurrencyCheck _ _ _ _ _ _ (by decide) (by decide)

/-- C9: appending an empty event list, with no `expectedVersion` or with a
matching one, succeeds in both stores and leaves the state completely
unchanged — neither implementation checks the spec's non-emptiness
precondition. -/
theorem c9_emptyAppend :
    (∀ (mem : InMemoryState) (aggId aggType : String) (ev? : Option Nat),
        (ev? = none ∨ ev? = some (currentVersionOf mem.events aggId)) →
        mem.appendEvents aggId aggType [] ev? = (Except.ok (), mem)) ∧
    (∀ (pg : PgState) (aggId aggType : String) (ev? : Option Nat),
        (ev? = none ∨ ev? = some (pg.getCurrentVersion aggId)) →
        pg.appendEventsInternal aggId aggType [] ev? = (Except.ok (), pg)) := by
  constructor
  · intro mem aggId aggType ev? h
    rcases h with rfl | rfl
    · simp [InMemoryState.appendEvents, InMemoryState.doAppend, mapIdxFrom]
    · simp [InMemoryState.appendEvents, InMemoryState.doAppend, mapIdxFrom]
  · intro pg aggId aggType ev? h
    rcases h with rfl | rfl
    · simp [PgState.appendEventsInternal, PgState.doAppend, mapIdxFrom]
    · simp [PgState.appendEventsInternal, PgState.doAppend, mapIdxFrom]

/-- C9 witness: an empty append with matching `expectedVersion = 1` on a
one-event in-memory store, and an empty append without `expectedVersion`
on the empty PostgreSQL store, both succeed unchanged. -/
theorem c9_emptyAppend_witness :
    ((InMemoryState.mk [⟨"A", "Order", "E1", 1, none, 9⟩] [] 1).appendEvents "A" "Order" []
      (some 1) = (Except.ok (), InMemoryState.mk [⟨"A", "Order", "E1", 1, none, 9⟩] [] 1)) ∧
    (PgState.empty.appendEventsInternal "A" "Order" [] none = (Except.ok (), PgState.empty)) :=
  ⟨c9_emptyAppend.1 _ "A" "Order" (some 1) (Or.inr (by decide)),
   c9_emptyAppend.2 _ "A" "Order" none (Or.inl rfl)⟩

/-- Setting a key then reading it yields the new value. -/
theorem mapGet_mapSet_self (k : String) (v : β) (l : List (String × β)) :
    mapGet k (mapSet k v l) = some v := by
  induction l with
  | nil => simp [mapSet, mapGet]
  | cons kv t ih =>
    obtain ⟨k1, v1⟩ := kv
    by_cases h : k1 = k
    · simp [mapSet, mapGet, h]
    · simp [mapSet, mapGet, h, ih]

/-- Counting bindings over a cons with the same key. -/
theorem countKey_cons_self (k : String) (v : β) (t : List (String × β)) :
    countKey k ((k, v) :: t) = countKey k t + 1 := by
  simp [countKey, List.filter_cons]

/-- Counting bindings over a cons with a different key. -/
theorem countKey_cons_ne (k k1 : String) (hk : k1 ≠ k) (v : β) (t : List (String × β)) :
    countKey k ((k1, v) :: t) = countKey k t := by
  simp [countKey, List.filter_cons, hk]

/-- Setting a key on a map holding at most one binding for it leaves
exactly one binding for it. -/
theorem countKey_mapSet_self (k : String) (v : β) (l : List (String × β))
    (h : countKey k l ≤ 1) : countKey k (mapSet k v l) = 1 := by
  induction l with
  | nil => simp [mapSet, countKey]
  | cons kv t ih =>
    obtain ⟨k1, v1⟩ := kv
    by_cases hk : k1 = k
    · subst hk
      rw [countKey_cons_self] at h
      rw [mapSet, if_pos rfl, countKey_cons_self]
      have h0 : countKey k1 t = 0 := by omega
      omega
    · rw [countKey_cons_ne k k1 hk] at h
      rw [mapSet, if_neg hk, countKey_cons_ne k k1 hk]
      exact ih h

/-- C8: in both stores, saving a snapshot at `v2` over a prior snapshot at
`v1 < v2` makes `getSnapshot` return exactly the new data and version
(latest wins); the store retains exactly one snapshot row per aggregate;
and `getSnapshot` of an aggregate without a snapshot is a success carrying
`none`, not an error. -/
theorem c8_snapshots :
    (∀ (mem : InMemoryState) (id ty : String) (d1 v1 d2 v2 : Nat),
        mapGet id mem.snapshots = some ⟨d1, v1⟩ → v1 < v2 →
        ((mem.saveSnapshot id ty d2 v2).2).getSnapshot id = Except.ok (some ⟨d2, v2⟩)) ∧
    (∀ (mem : InMemoryState) (id ty : String) (d2 v2 : Nat),
        countKey id mem.snapshots ≤ 1 →
        countKey id ((mem.saveSnapshot id ty d2 v2).2).snapshots = 1) ∧
    (∀ (mem : InMemoryState) (id : String),
        mapGet id mem.snapshots = none → mem.getSnapshot id = Except.ok none) ∧
    (∀ (pg : PgState) (id ty : String) (r1 : PgSnapshotRow) (d2 v2 : Nat),
        mapGet id pg.snapshots = some r1 → r1.version < v2 →
        ((pg.saveSnapshotInternal id ty d2 v2).2).getSnapshot id
          = Except.ok (some ⟨d2, v2⟩)) ∧
    (∀ (pg : PgState) (id ty : String) (d2 v2 : Nat),
        countKey id pg.snapshots ≤ 1 →
        countKey id ((pg.saveSnapshotInternal id ty d2 v2).2).snapshots = 1) ∧
    (∀ (pg : PgState) (id : String),
        mapGet id pg.snapshots = none → pg.getSnapshot id = Except.ok none) := by
  refine ⟨?_, ?_, ?_, ?_, ?_, ?_⟩
  · intro mem id ty d1 v1 d2 v2 hprior hv
    simp [InMemoryState.saveSnapshot, InMemoryState.getSnapshot, mapGet_mapSet_self]
  · intro mem id ty d2 v2 h
    simpa [InMemoryState.saveSnapshot] using countKey_mapSet_self id ⟨d2, v2⟩ mem.snapshots h
  · intro mem id h
    simp [InMemoryState.getSnapshot, h]
  · intro pg id ty r1 d2 v2 hprior hv
    simp [PgState.saveSnapshotInternal, PgState.getSnapshot, mapGet_mapSet_self]
  · intro pg id ty d2 v2 h
    simpa [PgState.saveSnapshotInternal] using
      countKey_mapSet_self id ⟨ty, d2, v2⟩ pg.snapshots h
  · intro pg id h
    simp [PgState.getSnapshot, h]

/-- C8 witness: overwriting a version-3 snapshot with a version-4 one and
reading it back, in both stores, plus a `none` read for an unknown
aggregate. -/
theorem c8_snapshots_witness :
    (((InMemoryState.mk [] [("A", ⟨50, 3⟩)] 0).saveSnapshot "A" "Order" 100 4).2.getSnapshot "A"
      = Except.ok (some ⟨100, 4⟩)) ∧
    (countKey "A" (((InMemoryState.mk [] [("A", ⟨50, 3⟩)] 0).saveSnapshot "A" "Order" 100
      4).2.snapshots) = 1) ∧
    ((InMemoryState.mk [] [("A", ⟨50, 3⟩)] 0).getSnapshot "B" = Except.ok none) ∧
    (((PgState.mk [] [("A", ⟨"Order", 50, 3⟩)]).saveSnapshotInternal "A" "Order" 100
      4).2.getSnapshot "A" = Except.ok (some ⟨100, 4⟩)) :=
  ⟨c8_snapshots.1 _ "A" "Order" 50 3 100 4 (by decide) (by decide),
   c8_snapshots.2.1 _ "A" "Order" 100 4 (by decide),
   c8_snapshots.2.2.1 _ "B" (by decide),
   c8_snapshots.2.2.2.1 _ "A" "Order" ⟨"Order", 50, 3⟩ 100 4 (by decide) (by decide)⟩

/-! ## Version assignment and gapless sequences -/


/-- Indexed map preserves length. -/
theorem mapIdxFrom_length (f : Nat → α → β) : ∀ (i : Nat) (l : List α),
    (mapIdxFrom f i l).length = l.length := by
  intro i l
  induction l generalizing i with
  | nil => rfl
  | cons a t ih => simp [mapIdxFrom, ih]

/-- Element `j` of an indexed map starting at `i` is `f (i + j)` of the
source element. -/
theorem mapIdxFrom_getElem (f : Nat → α → β) : ∀ (i j : Nat) (l : List α),
    (mapIdxFrom f i l)[j]? = (l[j]?).map (f (i + j)) := by
  intro i j l
  induction l generalizing i j with
  | nil => simp [mapIdxFrom]
  | cons a t ih =>
    cases j with
    | zero => simp [mapIdxFrom]
    | succ n =>
      simp only [mapIdxFrom, List.getElem?_cons_succ, ih (i + 1) n]
      have : i + 1 + n = i + (n + 1) := by omega
      rw [this]

/-- The maximum (with default 0) of `range' s n` is its last element. -/
theorem foldr_max_range' : ∀ (n s : Nat),
    (List.range' s n).foldr max 0 = if n = 0 then 0 else s + n - 1 := by
  intro n
  induction n with
  | zero => intro s; rfl
  | succ m ih =>
    intro s
    rw [List.range'_succ]
    simp only [List.foldr_cons, ih (s + 1)]
    by_cases hm : m = 0
    · subst hm; simp
    · rw [if_neg hm, if_neg (by omega)]
      omega

/-- Versions of an aggregate distribute over list append. -/
theorem versionsFor_append (l1 l2 : List StoredEvent) (id : String) :
    versionsFor (l1 ++ l2) id = versionsFor l1 id ++ versionsFor l2 id := by
  simp [versionsFor, List.filter_append]

/-- A batch built with versions `c + index + 1` for aggregate `id`
contributes exactly the version run `c + i + 1, ...`. -/
theorem versionsFor_mapIdxFrom_self (f : Nat → DomainEvent → StoredEvent) (id : String)
    (c : Nat) (hid : ∀ i e, (f i e).aggregateId = id)
    (hver : ∀ i e, (f i e).eventVersion = c + i + 1) :
    ∀ (i : Nat) (evs : List DomainEvent),
      versionsFor (mapIdxFrom f i evs) id = List.range' (c + i + 1) evs.length := by
  intro i evs
  induction evs generalizing i with
  | nil => rfl
  | cons e t ih =>
    simp only [mapIdxFrom, versionsFor, List.filter_cons]
    rw [if_pos (by simp [hid i e])]
    simp only [List.map_cons, hver i e]
    have harg : c + (i + 1) + 1 = c + i + 1 + 1 := by omega
    have ht := ih (i + 1)
    simp only [versionsFor] at ht
    rw [ht, harg, List.length_cons, List.range'_succ]

/-- A batch built entirely for aggregate `id` contributes nothing to any
other aggregate. -/
theorem versionsFor_mapIdxFrom_ne (f : Nat → DomainEvent → StoredEvent) (id id2 : String)
    (hid : ∀ i e, (f i e).aggregateId = id) (hne : id ≠ id2) :
    ∀ (i : Nat) (evs : List DomainEvent),
      versionsFor (mapIdxFrom f i evs) id2 = [] := by
  intro i evs
  induction evs generalizing i with
  | nil => rfl
  | cons e t ih =>
    simp only [mapIdxFrom, versionsFor, List.filter_cons]
    rw [if_neg (by simp [hid i e, hne])]
    exact ih (i + 1)

/-- Gapless invariant: for every aggregate, the stored versions in store
order are exactly `1, 2, ..., N`. -/
def gapless (events : List StoredEvent) : Prop :=
  ∀ id, versionsFor events id = List.range' 1 (versionsFor events id).length

/-- The empty store is gapless. -/
theorem gapless_nil : gapless [] := fun _ => rfl

/-- In a gapless store the current version of an aggregate equals its
event count. -/
theorem currentVersionOf_of_gapless (events : List StoredEvent) (hg : gapless events)
    (id : String) : currentVersionOf events id = (versionsFor events id).length := by
  rw [currentVersionOf, hg id, foldr_max_range', List.length_range']
  generalize (versionsFor events id).length = n
  by_cases hn : n = 0
  · simp [hn]
  · rw [if_neg hn]
    omega

/-- Appending a batch whose versions continue from the aggregate's current
version preserves gaplessness. -/
theorem gapless_append (events0 : List StoredEvent) (hg : gapless events0)
    (id : String) (f : Nat → DomainEvent → StoredEvent)
    (hid : ∀ i e, (f i e).aggregateId = id)
    (hver : ∀ i e, (f i e).eventVersion = currentVersionOf events0 id + i + 1)
    (evs : List DomainEvent) :
    gapless (events0 ++ mapIdxFrom f 0 evs) := by
  intro id2
  rw [versionsFor_append]
  by_cases he : id = id2
  · subst he
    rw [versionsFor_mapIdxFrom_self f id _ hid hver 0 evs]
    have hL := hg id
    generalize hn : (versionsFor events0 id).length = n at hL
    rw [currentVersionOf_of_gapless events0 hg id, hn, hL]
    rw [List.length_append, List.length_range', List.length_range']
    have h1 : n + 0 + 1 = 1 + 1 * n := by omega
    rw [h1, List.range'_append]
    congr 1
    omega
  · rw [versionsFor_mapIdxFrom_ne f id id2 hid he 0 evs, List.append_nil]
    exact hg id2

/-- Iterate `appendEventsInternal` without `expectedVersion` over a list of
calls `(aggregateId, aggregateType, events)`. -/
def PgState.runAppends (s : PgState) : List (String × String × List DomainEvent) → PgState
  | [] => s
  | c :: rest => PgState.runAppends ((s.appendEventsInternal c.1 c.2.1 c.2.2 none).2) rest

/-- Iterate the in-memory `appendEvents` without `expectedVersion`. -/
def InMemoryState.runAppends (s : InMemoryState) :
    List (String × String × List DomainEvent) → InMemoryState
  | [] => s
  | c :: rest => InMemoryState.runAppends ((s.appendEvents c.1 c.2.1 c.2.2 none).2) rest

/-- Rows after the committed PostgreSQL append. -/
theorem pg_doAppend_rows (s : PgState) (id ty : String) (cur : Nat) (evs : List DomainEvent) :
    (s.doAppend id ty cur evs).2.rows =
      s.rows ++ mapIdxFrom (PgState.mkEntity id ty cur s.nextGlobalVer) 0 evs := rfl

/-- Events after the in-memory append. -/
theorem mem_doAppend_events (s : InMemoryState) (id ty : String) (evs : List DomainEvent) :
    (s.doAppend id ty evs).2.events =
      s.events ++ mapIdxFrom (InMemoryState.mkStored s.events id ty) 0 evs := rfl

/-- A successful `appendEventsInternal` ran the commit branch. -/
theorem pg_appendOk (s : PgState) (id ty : String) (evs : List DomainEvent) (ev? : Option Nat)
    (h : (s.appendEventsInternal id ty evs ev?).1 = Except.ok ()) :
    s.appendEventsInternal id ty evs ev? = s.doAppend id ty (s.getCurrentVersion id) evs := by
  cases ev? with
  | none => rfl
  | some expected =>
    by_cases hc : s.getCurrentVersion id ≠ expected
    · exfalso
      simp [PgState.appendEventsInternal, hc] at h
    · simp [PgState.appendEventsInternal, hc]

/-- A successful in-memory `appendEvents` ran the append branch. -/
theorem mem_appendOk (s : InMemoryState) (id ty : String) (evs : List DomainEvent)
    (ev? : Option Nat) (h : (s.appendEvents id ty evs ev?).1 = Except.ok ()) :
    s.appendEvents id ty evs ev? = s.doAppend id ty evs := by
  cases ev? with
  | none => rfl
  | some expected =>
    by_cases hc : currentVersionOf s.events id ≠ expected
    · exfalso
      simp [InMemoryState.appendEvents, hc] at h
    · simp [InMemoryState.appendEvents, hc]

/-- One PostgreSQL append without `expectedVersion` preserves
gaplessness. -/
theorem gapless_pg_step (s : PgState) (hg : gapless s.rows) (id ty : String)
    (evs : List DomainEvent) : gapless ((s.appendEventsInternal id ty evs none).2).rows := by
  have : (s.appendEventsInternal id ty evs none) = s.doAppend id ty (s.getCurrentVersion id) evs :=
    rfl
  rw [this, pg_doAppend_rows]
  exact gapless_append s.rows hg id
    (PgState.mkEntity id ty (s.getCurrentVersion id) s.nextGlobalVer)
    (fun i e => rfl) (fun i e => rfl) evs

/-- One in-memory append without `expectedVersion` preserves
gaplessness. -/
theorem gapless_mem_step (s : InMemoryState) (hg : gapless s.events) (id ty : String)
    (evs : List DomainEvent) : gapless ((s.appendEvents id ty evs none).2).events := by
  have : (s.appendEvents id ty evs none) = s.doAppend id ty evs := rfl
  rw [this, mem_doAppend_events]
  exact gapless_append s.events hg id (InMemoryState.mkStored s.events id ty)
    (fun i e => rfl) (fun i e => rfl) evs

/-- Any sequence of PostgreSQL appends preserves gaplessness. -/
theorem gapless_pg_run (calls : List (String × String × List DomainEvent)) :
    ∀ s : PgState, gapless s.rows → gapless ((PgState.runAppends s calls).rows) := by
  induction calls with
  | nil => intro s h; exact h
  | cons c rest ih =>
    intro s h
    exact ih _ (gapless_pg_step s h c.1 c.2.1 c.2.2)

/-- Any sequence of in-memory appends preserves gaplessness. -/
theorem gapless_mem_run (calls : List (String × String × List DomainEvent)) :
    ∀ s : InMemoryState, gapless s.events → gapless ((InMemoryState.runAppends s calls).events) := by
  induction calls with
  | nil => intro s h; exact h
  | cons c rest ih =>
    intro s h
    exact ih _ (gapless_mem_step s h c.1 c.2.1 c.2.2)

/-- C2 (amended): on every successful append, the `i`-th appended event is
assigned `eventVersion = currentVersion + i + 1` in both stores; the
PostgreSQL store additionally assigns
`globalVersion = nextGlobalVersion + i`, while the in-memory store stamps
no `globalVersion` on stored events (the pair projection yields `none`);
consequently, from an empty store, any sequence of appends without
`expectedVersion` leaves every aggregate's `eventVersion`s a gapless
sequence `1..N` in store order, in both stores. -/
theorem c2_versionAssignment :
    (∀ (s : PgState) (id ty : String) (evs : List DomainEvent) (ev? : Option Nat),
        (s.appendEventsInternal id ty evs ev?).1 = Except.ok () →
        ∀ i : Nat,
          (((s.appendEventsInternal id ty evs ev?).2).rows[s.rows.length + i]?).map
              (fun r => (r.eventVersion, r.globalVersion))
            = (evs[i]?).map
              (fun _ => (s.getCurrentVersion id + i + 1, some (s.nextGlobalVer + i)))) ∧
    (∀ (s : InMemoryState) (id ty : String) (evs : List DomainEvent) (ev? : Option Nat),
        (s.appendEvents id ty evs ev?).1 = Except.ok () →
        ∀ i : Nat,
          (((s.appendEvents id ty evs ev?).2).events[s.events.length + i]?).map
              (fun r => (r.eventVersion, r.globalVersion))
            = (evs[i]?).map
              (fun _ => (currentVersionOf s.events id + i + 1, (none : Option Nat)))) ∧
    (∀ (calls : List (String × String × List DomainEvent)) (id : String),
        versionsFor ((PgState.empty.runAppends calls).rows) id
          = List.range' 1 (versionsFor ((PgState.empty.runAppends calls).rows) id).length) ∧
    (∀ (calls : List (String × String × List DomainEvent)) (id : String),
        versionsFor ((InMemoryState.empty.runAppends calls).events) id
          = List.range' 1 (versionsFor ((InMemoryState.empty.runAppends calls).events) id).length) := by
  refine ⟨?_, ?_, ?_, ?_⟩
  · intro s id ty evs ev? hok i
    rw [pg_appendOk s id ty evs ev? hok, pg_doAppend_rows,
        List.getElem?_append_right (by omega)]
    have hi : s.rows.length + i - s.rows.length = i := by omega
    rw [hi, mapIdxFrom_getElem]
    cases evs[i]? <;> simp [PgState.mkEntity]
  · intro s id ty evs ev? hok i
    rw [mem_appendOk s id ty evs ev? hok, mem_doAppend_events,
        List.getElem?_append_right (by omega)]
    have hi : s.events.length + i - s.events.length = i := by omega
    rw [hi, mapIdxFrom_getElem]
    cases evs[i]? <;> simp [InMemoryState.mkStored]
  · intro calls id
    exact gapless_pg_run calls PgState.empty gapless_nil id
  · intro calls id
    exact gapless_mem_run calls InMemoryState.empty gapless_nil id

/-- C2 counterexample: the first (successful) append to the empty in-memory
store stores an event whose `globalVersion` field is `none`, not
`nextGlobalVersion + 0 = some 1` as the claim requires — the in-memory
implementation never assigns a per-event `globalVersion`. -/
theorem c2_counterexample :
    ((InMemoryState.empty.appendEvents "A" "Order" [⟨"OrderCreated", 7⟩] none).2.events.map
      (fun r => r.globalVersion)) = [none] ∧
    (InMemoryState.empty.appendEvents "A" "Order" [⟨"OrderCreated", 7⟩] none).1
      = Except.ok () := by
  decide

/-- C2 witness: the second event of a two-event PostgreSQL append to the
empty store carries `eventVersion = 2` and `globalVersion = 2`; and after
three interleaved appends the versions of aggregate `A` form
`1, 2, ...`. -/
theorem c2_versionAssignment_witness :
    (((PgState.empty.appendEventsInternal "A" "Order" [⟨"E1", 5⟩, ⟨"E2", 6⟩] none).2).rows[
        PgState.empty.rows.length + 1]?).map (fun r => (r.eventVersion, r.globalVersion))
      = some (2, some 2) ∧
    versionsFor ((PgState.empty.runAppends
        [("A", "Order", [⟨"E1", 5⟩, ⟨"E2", 6⟩]), ("B", "Order", [⟨"E3", 7⟩]),
         ("A", "Order", [⟨"E4", 8⟩])]).rows) "A"
      = List.range' 1 (versionsFor ((PgState.empty.runAppends
        [("A", "Order", [⟨"E1", 5⟩, ⟨"E2", 6⟩]), ("B", "Order", [⟨"E3", 7⟩]),
         ("A", "Order", [⟨"E4", 8⟩])]).rows) "A").length :=
  ⟨c2_versionAssignment.1 _ "A" "Order" _ none rfl 1,
   c2_versionAssignment.2.2.1 _ "A"⟩

/-! ## Query filtering and ordering -/


/-- The global-version comparator is transitive. -/
theorem leGlobal_trans : ∀ a b c : StoredEvent,
    leGlobal a b = true → leGlobal b c = true → leGlobal a c = true := by
  intro a b c
  simp only [leGlobal, decide_eq_true_eq]
  omega

/-- The global-version comparator is total. -/
theorem leGlobal_total : ∀ a b : StoredEvent, (leGlobal a b || leGlobal b a) = true := by
  intro a b
  simp only [leGlobal, Bool.or_eq_true, decide_eq_true_eq]
  omega

/-- The event-version comparator is transitive. -/
theorem leEvent_trans : ∀ a b c : StoredEvent,
    leEvent a b = true → leEvent b c = true → leEvent a c = true := by
  intro a b c
  simp only [leEvent, decide_eq_true_eq]
  omega

/-- The event-version comparator is total. -/
theorem leEvent_total : ∀ a b : StoredEvent, (leEvent a b || leEvent b a) = true := by
  intro a b
  simp only [leEvent, Bool.or_eq_true, decide_eq_true_eq]
  omega

/-- C3 (amended): the PostgreSQL `getEventsByType` returns exactly the
rows of the requested type with `globalVersion > fromVersion` (when
given), ascending by `globalVersion`, and `getAllEvents` applies
`fromVersion` as an exclusive and `toVersion` as an inclusive bound on
`globalVersion`, ascending by `globalVersion`; the in-memory
implementations of the same two queries instead filter and sort by
`eventVersion` (stored in-memory events carry no `globalVersion`), with
`fromVersion` exclusive and `toVersion` inclusive on `eventVersion`.
Each result is characterized as a permutation of the corresponding filter
of the store, sorted by the respective key. -/
theorem c3_queryOrdering :
    (∀ (s : PgState) (t : String) (f? : Option Nat) (l : List StoredEvent),
        s.getEventsByType t f? = Except.ok l →
        l.Perm (s.rows.filter (fun e =>
          e.eventType == t &&
          (match f? with | none => true | some v => decide (v < e.globalVersion.getD 0)))) ∧
        l.Pairwise (fun a b => a.globalVersion.getD 0 ≤ b.globalVersion.getD 0)) ∧
    (∀ (s : PgState) (f? t? : Option Nat) (l : List StoredEvent),
        s.getAllEvents f? t? = Except.ok l →
        l.Perm (s.rows.filter (fun e =>
          (match f? with | none => true | some v => decide (v < e.globalVersion.getD 0)) &&
          (match t? with | none => true | some v => decide (e.globalVersion.getD 0 ≤ v)))) ∧
        l.Pairwise (fun a b => a.globalVersion.getD 0 ≤ b.globalVersion.getD 0)) ∧
    (∀ (s : InMemoryState) (t : String) (f? : Option Nat) (l : List StoredEvent),
        s.getEventsByType t f? = Except.ok l →
        l.Perm ((s.events.filter (fun e => e.eventType == t)).filter (fun e =>
          match f? with | none => true | some v => decide (v < e.eventVersion))) ∧
        l.Pairwise (fun a b => a.eventVersion ≤ b.eventVersion)) ∧
    (∀ (s : InMemoryState) (f? t? : Option Nat) (l : List StoredEvent),
        s.getAllEvents f? t? = Except.ok l →
        l.Perm ((s.events.filter (fun e =>
          match f? with | none => true | some v => decide (v < e.eventVersion))).filter (fun e =>
          match t? with | none => true | some v => decide (e.eventVersion ≤ v))) ∧
        l.Pairwise (fun a b => a.eventVersion ≤ b.eventVersion)) := by
  refine ⟨?_, ?_, ?_, ?_⟩
  · intro s t f? l h
    simp only [PgState.getEventsByType, Except.ok.injEq] at h
    subst h
    refine ⟨List.mergeSort_perm _ leGlobal, ?_⟩
    exact (List.sorted_mergeSort leGlobal_trans leGlobal_total _).imp
      (fun h => by simpa [leGlobal] using h)
  · intro s f? t? l h
    simp only [PgState.getAllEvents, Except.ok.injEq] at h
    subst h
    refine ⟨List.mergeSort_perm _ leGlobal, ?_⟩
    exact (List.sorted_mergeSort leGlobal_trans leGlobal_total _).imp
      (fun h => by simpa [leGlobal] using h)
  · intro s t f? l h
    simp only [InMemoryState.getEventsByType, Except.ok.injEq] at h
    subst h
    refine ⟨List.mergeSort_perm _ leEvent, ?_⟩
    exact (List.sorted_mergeSort leEvent_trans leEvent_total _).imp
      (fun h => by simpa [leEvent] using h)
  · intro s f? t? l h
    simp only [InMemoryState.getAllEvents, Except.ok.injEq] at h
    subst h
    refine ⟨List.mergeSort_perm _ leEvent, ?_⟩
    exact (List.sorted_mergeSort leEvent_trans leEvent_total _).imp
      (fun h => by simpa [leEvent] using h)

/-- C3 counterexample: append one event to aggregate `A`, then two to
aggregate `B`, so the store-wide append order is `EvA1, EvB1, EvB2`
(store positions 1, 2, 3).  Under the claim, `getAllEvents` with
`fromVersion = 1` (exclusive bound on `globalVersion`) must return the
second and third events; the in-memory store filters on `eventVersion`
instead and returns only `EvB2`, dropping `EvB1` whose `eventVersion`
is 1. -/
theorem c3_counterexample :
    ((((InMemoryState.empty.appendEvents "A" "T" [⟨"EvA1", 0⟩] none).2).appendEvents
        "B" "T" [⟨"EvB1", 0⟩, ⟨"EvB2", 0⟩] none).2).events.map (fun e => e.eventType)
      = ["EvA1", "EvB1", "EvB2"] ∧
    ((((InMemoryState.empty.appendEvents "A" "T" [⟨"EvA1", 0⟩] none).2).appendEvents
        "B" "T" [⟨"EvB1", 0⟩, ⟨"EvB2", 0⟩] none).2).getAllEvents (some 1) none
      = Except.ok [⟨"B", "T", "EvB2", 2, none, 0⟩] := by
  refine ⟨by decide, ?_⟩
  rw [InMemoryState.getAllEvents]
  congr 1
  have hf : List.filter
        (fun (e : StoredEvent) => match (none : Option Nat) with
          | none => true
          | some v => decide (e.eventVersion ≤ v))
        (List.filter
          (fun (e : StoredEvent) => match (some 1 : Option Nat) with
            | none => true
            | some v => decide (v < e.eventVersion))
          ((((InMemoryState.empty.appendEvents "A" "T" [⟨"EvA1", 0⟩] none).2).appendEvents
            "B" "T" [⟨"EvB1", 0⟩, ⟨"EvB2", 0⟩] none).2).events)
      = [⟨"B", "T", "EvB2", 2, none, 0⟩] := by decide
  rw [hf]
  exact List.perm_singleton.mp (List.mergeSort_perm _ leEvent)

/-- C3 witness: a one-row PostgreSQL store queried by type yields that row,
a permutation of the filter and trivially sorted by `globalVersion`;
same for a one-event in-memory store with `eventVersion`. -/
theorem c3_queryOrdering_witness :
    (([⟨"A", "T", "E1", 1, some 1, 0⟩] : List StoredEvent).Perm
        ((PgState.mk [⟨"A", "T", "E1", 1, some 1, 0⟩] []).rows.filter (fun e =>
          e.eventType == "E1" &&
          (match (none : Option Nat) with
            | none => true
            | some v => decide (v < e.globalVersion.getD 0)))) ∧
      ([⟨"A", "T", "E1", 1, some 1, 0⟩] : List StoredEvent).Pairwise
        (fun a b => a.globalVersion.getD 0 ≤ b.globalVersion.getD 0)) ∧
    (([⟨"A", "T", "EvA1", 1, none, 0⟩] : List StoredEvent).Perm
        (((InMemoryState.mk [⟨"A", "T", "EvA1", 1, none, 0⟩] [] 1).events.filter
          (fun e => e.eventType == "EvA1")).filter (fun e =>
          match (none : Option Nat) with
          | none => true
          | some v => decide (v < e.eventVersion))) ∧
      ([⟨"A", "T", "EvA1", 1, none, 0⟩] : List StoredEvent).Pairwise
        (fun a b => a.eventVersion ≤ b.eventVersion)) := by
  have h1 : (PgState.mk [⟨"A", "T", "E1", 1, some 1, 0⟩] []).getEventsByType "E1" none
      = Except.ok [⟨"A", "T", "E1", 1, some 1, 0⟩] := by
    simp [PgState.getEventsByType, List.filter]
  have h2 : (InMemoryState.mk [⟨"A", "T", "EvA1", 1, none, 0⟩] [] 1).getEventsByType
      "EvA1" none = Except.ok [⟨"A", "T", "EvA1", 1, none, 0⟩] := by
    simp [InMemoryState.getEventsByType, List.filter]
  exact ⟨c3_queryOrdering.1 _ "E1" none _ h1, c3_queryOrdering.2.2.1 _ "EvA1" none _ h2⟩
